import Mathlib

/-!
Verification development for the GitHub orchestration core of a
release-management tool (`src/github.ts`).  The definitions below are a
shallow embedding of that file: each JavaScript/TypeScript function that the
properties talk about is translated into an executable Lean function, with
network responses modelled as explicit inputs (lists of pull requests, tag
pages, commit pages, or response-returning environments).  JavaScript
peculiarities that the source relies on (string truthiness, `String.replace`
replacing only the first occurrence, post-increment expressions, the `semver`
package's strict grammar) are modelled explicitly and named as such.
-/

/-! ## JavaScript value helpers -/

/-- Truthiness of a `string | undefined` value: `undefined` and `""` are falsy. -/
def jsTruthyStr : Option String → Bool
  | none => false
  | some s => !s.isEmpty

/-- Falsiness of a `string | undefined` value. -/
def jsFalsyStr (o : Option String) : Bool := !jsTruthyStr o

/-- String coercion of a `string | undefined` value, as performed by JS
template literals and by `String.prototype.replace`: `undefined` becomes the
text `"undefined"`. -/
def jsToString : Option String → String
  | none => "undefined"
  | some s => s

/-- Does `pat` occur as a contiguous sublist of the second argument?
Models `String.prototype.includes`. -/
def listIncludes (pat : List Char) : List Char → Bool
  | [] => pat.isEmpty
  | c :: rest => pat.isPrefixOf (c :: rest) || listIncludes pat rest

/-- Models `s.includes(pat)` for strings. -/
def strIncludes (s pat : String) : Bool := listIncludes pat.data s.data

/-- Remove the first occurrence of `pat` (leaves the list unchanged when `pat`
does not occur; removes nothing when `pat` is empty beyond the zero-width
match at the front). -/
def removeFirstSubL (pat : List Char) : List Char → List Char
  | [] => []
  | c :: rest =>
    if pat.isPrefixOf (c :: rest) then (c :: rest).drop pat.length
    else c :: removeFirstSubL pat rest

/-- Models `s.replace(pat, '')` for a *string* pattern: JS replaces only the first
occurrence.  `s.replace("", '')` is the identity (zero-width match). -/
def replaceFirstOcc (s pat : String) : String :=
  String.mk (removeFirstSubL pat.data s.data)

/-- Models `s.padStart(6, '0')`. -/
def padStart6 (s : String) : String :=
  if s.length ≥ 6 then s else String.mk (List.replicate (6 - s.length) '0') ++ s

/-- Split a character list at every occurrence of the character `sep`
(kernel-reducible replacement for `String.splitOn` with a one-character
separator). -/
def splitOnCharL (sep : Char) : List Char → List (List Char)
  | [] => [[]]
  | c :: rest =>
    let r := splitOnCharL sep rest
    if c == sep then [] :: r
    else match r with
      | [] => [[c]]
      | g :: gs => (c :: g) :: gs

def splitOnChar (sep : Char) (s : String) : List String :=
  (splitOnCharL sep s.data).map String.mk

/-- Models `s.trim()` (kernel-reducible). -/
def trimL (cs : List Char) : List Char :=
  ((cs.dropWhile Char.isWhitespace).reverse.dropWhile Char.isWhitespace).reverse

/-- Does the character occur in the string? (kernel-reducible replacement for
`String.contains` / single-character `String.includes`). -/
def strHasChar (s : String) (c : Char) : Bool := s.data.contains c

/-- Models `s.startsWith(p)` (kernel-reducible). -/
def strStartsWith (s p : String) : Bool := p.data.isPrefixOf s.data

def intercalateL (sep : List Char) : List (List Char) → List Char
  | [] => []
  | [g] => g
  | g :: gs => g ++ sep ++ intercalateL sep gs

def strIntercalate (sep : String) (l : List String) : String :=
  String.mk (intercalateL sep.data (l.map String.data))

/-- Models `s.replace(/[a-zA-Z.]/, '')`: the regex has no `g` flag, so only the first
letter-or-dot is removed. -/
def removeFirstAlphaDotL : List Char → List Char
  | [] => []
  | c :: rest => if c.isAlpha || c == '.' then rest else c :: removeFirstAlphaDotL rest

def removeFirstAlphaDot (s : String) : String := String.mk (removeFirstAlphaDotL s.data)

/-! ## Base64 (`Buffer.from(x, 'base64').toString('utf8')`)

Bytes are mapped to characters directly; multi-byte UTF-8 sequences are not
reassembled (every input exercised in this development is ASCII). -/

def base64Val (c : Char) : Option Nat :=
  if 'A' ≤ c ∧ c ≤ 'Z' then some (c.toNat - 65)
  else if 'a' ≤ c ∧ c ≤ 'z' then some (c.toNat - 97 + 26)
  else if '0' ≤ c ∧ c ≤ '9' then some (c.toNat - 48 + 52)
  else if c = '+' then some 62
  else if c = '/' then some 63
  else none

/-- Padding `=` and any non-alphabet character are skipped, as `Buffer.from`
does. -/
def base64Sextets (s : String) : List Nat := s.data.filterMap base64Val

def sextetsToBytes : List Nat → List Nat
  | a :: b :: c :: d :: rest =>
    (a * 4 + b / 16) :: ((b % 16) * 16 + c / 4) :: ((c % 4) * 64 + d) :: sextetsToBytes rest
  | [a, b] => [a * 4 + b / 16]
  | [a, b, c] => [a * 4 + b / 16, (b % 16) * 16 + c / 4]
  | _ => []

def decodeBase64 (s : String) : String :=
  String.mk ((sextetsToBytes (base64Sextets s)).map Char.ofNat)

/-! ## The `semver` package (strict mode, as used by `github.ts`)

`semver.valid` and `semver.rcompare` parse with the package's strict grammar:
optional leading `v`, three dot-separated numeric identifiers without leading
zeroes, an optional pre-release (dot-separated identifiers, where an
all-digits identifier must not have leading zeroes), and optional build
metadata.  `rcompare` throws `Invalid Version: <v>` on anything else. -/

inductive PreId where
  | num (n : Nat)
  | str (s : String)
deriving DecidableEq, Repr

def semverMAXSAFE : Nat := 9007199254740991

def digitsToNat (cs : List Char) : Nat := cs.foldl (fun n c => n * 10 + (c.toNat - 48)) 0

/-- Longest leading digit run and the remainder. -/
def takeDigits : List Char → List Char × List Char
  | [] => ([], [])
  | c :: rest =>
    if c.isDigit then
      let p := takeDigits rest
      (c :: p.1, p.2)
    else ([], c :: rest)

/-- One `NUMERICIDENTIFIER` (`0|[1-9]\d*`) and the rest of the input. -/
def parseNumId (cs : List Char) : Option (Nat × List Char) :=
  match takeDigits cs with
  | ([], _) => none
  | (ds, rest) =>
    if ds.length > 1 && ds.headD '0' == '0' then none
    else some (digitsToNat ds, rest)

def expectDot : List Char → Option (List Char)
  | '.' :: r => some r
  | _ => none

def isIdentChar (c : Char) : Bool := c.isAlphanum || c == '-'

/-- A valid pre-release identifier: nonempty, alphanumeric-or-hyphen, and an
all-digits identifier has no leading zero. -/
def validPreIdStr (s : String) : Bool :=
  !s.isEmpty && s.data.all isIdentChar &&
    (!(s.data.all Char.isDigit) || s == "0" || s.data.headD '0' != '0')

/-- The package stores an all-digits identifier as a number only when it is
below `Number.MAX_SAFE_INTEGER`. -/
def preIdOfStr (s : String) : PreId :=
  if s.data.all Char.isDigit && digitsToNat s.data < semverMAXSAFE then PreId.num (digitsToNat s.data)
  else PreId.str s

def validBuildIdStr (s : String) : Bool := !s.isEmpty && s.data.all isIdentChar

def parsePreList (s : String) : Option (List PreId) :=
  let ids := splitOnChar '.' s
  if ids.all validPreIdStr then some (ids.map preIdOfStr) else none

def parseBuildList (s : String) : Bool := (splitOnChar '.' s).all validBuildIdStr

/-- Parse what follows `major.minor.patch`: optional `-prerelease`, optional
`+build` (validated, then discarded). -/
def parseVerTail : List Char → Option (List PreId)
  | [] => some []
  | '-' :: r =>
    (match splitOnChar '+' (String.mk r) with
     | [p] => parsePreList p
     | [p, b] => if parseBuildList b then parsePreList p else none
     | _ => none)
  | '+' :: r =>
    (match splitOnChar '+' (String.mk r) with
     | [b] => if parseBuildList b then some [] else none
     | _ => none)
  | _ => none

structure SemVer where
  major : Nat
  minor : Nat
  patch : Nat
  pre : List PreId
deriving DecidableEq, Repr

def semverParse (s : String) : Option SemVer :=
  if s.length > 256 then none else
  let cs0 := trimL s.data
  let cs := match cs0 with | 'v' :: r => r | _ => cs0
  match parseNumId cs with
  | none => none
  | some (maj, r1) =>
    match expectDot r1 with
    | none => none
    | some r1d =>
      match parseNumId r1d with
      | none => none
      | some (mnr, r2) =>
        match expectDot r2 with
        | none => none
        | some r2d =>
          match parseNumId r2d with
          | none => none
          | some (ptc, r3) =>
            if maj > semverMAXSAFE || mnr > semverMAXSAFE || ptc > semverMAXSAFE then none
            else (parseVerTail r3).map (fun pre => ⟨maj, mnr, ptc, pre⟩)

def preIdToString : PreId → String
  | .num n => toString n
  | .str s => s

/-- Models `SemVer.prototype.version`, the string `semver.valid` returns: build
metadata is dropped. -/
def semverFormat (v : SemVer) : String :=
  toString v.major ++ "." ++ toString v.minor ++ "." ++ toString v.patch ++
    (if v.pre.isEmpty then "" else "-" ++ strIntercalate "." (v.pre.map preIdToString))

def semverValid (s : String) : Option String := (semverParse s).map semverFormat

def cmpNat (a b : Nat) : Int := if a < b then -1 else if b < a then 1 else 0

def cmpStr (a b : String) : Int := if a == b then 0 else if a < b then -1 else 1

def preIdIsNumeric : PreId → Bool
  | .num _ => true
  | .str s => !s.isEmpty && s.data.all Char.isDigit

def preIdNatVal : PreId → Nat
  | .num n => n
  | .str s => digitsToNat s.data

/-- Models `compareIdentifiers`: two numeric identifiers compare numerically, a
numeric identifier sorts below an alphanumeric one, and two alphanumeric
identifiers compare lexically.  Numeric comparison is exact here; JS compares
IEEE doubles, which only differs for identifiers at or above 2^53, never
produced by inputs in scope. -/
def cmpPreId (a b : PreId) : Int :=
  if preIdIsNumeric a && preIdIsNumeric b then cmpNat (preIdNatVal a) (preIdNatVal b)
  else if preIdIsNumeric a then -1
  else if preIdIsNumeric b then 1
  else cmpStr (preIdToString a) (preIdToString b)

def cmpPreList : List PreId → List PreId → Int
  | [], [] => 0
  | [], _ :: _ => -1
  | _ :: _, [] => 1
  | a :: as, b :: bs =>
    let c := cmpPreId a b
    if c == 0 then cmpPreList as bs else c

/-- A version with a pre-release sorts below the same version without one. -/
def cmpPre (a b : List PreId) : Int :=
  if !a.isEmpty && b.isEmpty then -1
  else if a.isEmpty && !b.isEmpty then 1
  else if a.isEmpty && b.isEmpty then 0
  else cmpPreList a b

def semverCompare (a b : SemVer) : Int :=
  let c1 := cmpNat a.major b.major
  if c1 != 0 then c1 else
  let c2 := cmpNat a.minor b.minor
  if c2 != 0 then c2 else
  let c3 := cmpNat a.patch b.patch
  if c3 != 0 then c3 else cmpPre a.pre b.pre

/-- Models `semver.rcompare(v1, v2)`, which is `compare(v2, v1)`, which parses `v2` first
and throws `Invalid Version` on a string the strict grammar rejects. -/
def rcompareStr (v1 v2 : String) : Except String Int :=
  match semverParse v2 with
  | none => Except.error ("Invalid Version: " ++ v2)
  | some b =>
    match semverParse v1 with
    | none => Except.error ("Invalid Version: " ++ v1)
    | some a => Except.ok (semverCompare b a)

/-! ## Pull requests and `VERSION_FROM_BRANCH_RE`

`VERSION_FROM_BRANCH_RE = /^.*:release-?([\w-.]*)-(v[0-9].*)$/`.  The matcher
below reproduces the engine's behaviour: greedy `.*` (rightmost colon first,
`.` never matches a newline), greedy `-?`, greedy `([\w-.]*)` backtracking one
character at a time until the literal hyphen and `v<digit>` fit. -/

structure PRRef where
  label : String
  ref : String
deriving DecidableEq, Repr

structure PullRequest where
  number : Nat
  labels : List String
  head : Option PRRef
  base : Option PRRef
  merged_at : Option String
  merge_commit_sha : String
  body : String
deriving DecidableEq, Repr

/-- Matches `\w` of JS regexes. -/
def vIsWordChar (c : Char) : Bool := c.isAlphanum || c == '_'

/-- The character class `[\w-.]`. -/
def vIsClassChar (c : Char) : Bool := vIsWordChar c || c == '-' || c == '.'

def classRunLen (cs : List Char) : Nat := (cs.takeWhile vIsClassChar).length

/-- Attempt to close the match `([\w-.]*)-(v[0-9].*)$` with the separating
hyphen at index `j`: requires `-v<digit>` there and no newline in the `.*`
span. -/
def checkSplitAt (t : List Char) (j : Nat) : Option (String × String) :=
  match t.drop j with
  | '-' :: 'v' :: d :: rest =>
    if d.isDigit && rest.all (fun c => c != '\n')
    then some (String.mk (t.take j), String.mk ('v' :: d :: rest))
    else none
  | _ => none

/-- Greedy `([\w-.]*)`: the engine tries the longest capture first and
backtracks one character at a time. -/
def findSplitDown (t : List Char) : Nat → Option (String × String)
  | 0 => checkSplitAt t 0
  | j+1 =>
    match checkSplitAt t (j+1) with
    | some r => some r
    | none => findSplitDown t j

def matchTailPart (t : List Char) : Option (String × String) :=
  findSplitDown t (classRunLen t)

/-- After the colon: literal `release`, then greedy `-?` (the engine tries
consuming the hyphen first and falls back to the empty alternative). -/
def matchAfterColon (t : List Char) : Option (String × String) :=
  if ("release".data).isPrefixOf t then
    match t.drop 7 with
    | '-' :: u1 =>
      (match matchTailPart u1 with
       | some r => some r
       | none => matchTailPart ('-' :: u1))
    | u => matchTailPart u
  else none

/-- Positions of `:` in the string, rightmost first (greedy `^.*:`). -/
def colonPositionsRev (cs : List Char) : List Nat :=
  ((List.range cs.length).filter (fun i => cs.getD i ' ' == ':')).reverse

/-- Models `s.match(VERSION_FROM_BRANCH_RE)` as the two captures (package piece and
`v...` version piece), or `none` when the regex does not match. -/
def versionFromBranch (s : String) : Option (String × String) :=
  let cs := s.data
  (colonPositionsRev cs).findSome? (fun i =>
    if (cs.take i).all (fun c => c != '\n') then matchAfterColon (cs.drop (i+1))
    else none)

structure GitHubReleasePR where
  number : Nat
  sha : String
  version : String
deriving DecidableEq, Repr

/-- Models `hasAllLabels`: the `forEach`/`indexOf` loop leaves `hasAll` true exactly
when every label of the first list occurs in the second. -/
def hasAllLabels (labelsA labelsB : List String) : Bool :=
  labelsA.all (fun l => labelsB.contains l)

/-- The filters `findMergedReleasePR` applies to a single closed pull request,
in source order; `none` is the loop's `continue`. -/
def mergedPRCheck (labels : List String) (pfx : Option String) (preRelease : Bool)
    (baseLabel : String) (pull : PullRequest) : Option GitHubReleasePR :=
  if !(labels.isEmpty || hasAllLabels labels pull.labels) then none
  else
    match pull.head with
    | none => none
    | some head =>
      match pull.base with
      | none => none
      | some base =>
        if base.label != baseLabel then none
        else
          match versionFromBranch head.label with
          | none => none
          | some (g1, version) =>
            if jsFalsyStr pull.merged_at then none
            else if version == "" then none
            else if jsTruthyStr pfx && g1 != jsToString pfx then none
            else if !(jsTruthyStr pfx) && g1 != "" then none
            else if !preRelease && strHasChar version '-' then none
            else
              match semverValid version with
              | none => none
              | some nv => some ⟨pull.number, pull.merge_commit_sha, nv⟩

/-- Models `findMergedReleasePR` over one page of closed PRs (most recently merged
first, as the request orders them); the `perPage` argument only shapes the
request URL and is represented by the page itself. -/
def findMergedReleasePR (pulls : List PullRequest) (labels : List String)
    (pfx : Option String) (preRelease : Bool) (baseLabel : String) :
    Option GitHubReleasePR :=
  pulls.findSome? (mergedPRCheck labels pfx preRelease baseLabel)

/-- The label loop of `findOpenReleasePRs`: `hasAllLabels` starts `false` and
is rewritten by each required label in turn. -/
def openPRLabelLoop (observed : List String) : List String → Bool → Bool
  | [], acc => acc
  | l :: rest, _ =>
    if observed.contains l then openPRLabelLoop observed rest true else false

def baseMatches (baseLabel : String) (p : PullRequest) : Bool :=
  match p.base with
  | some b => b.label == baseLabel
  | none => false

def findOpenReleasePRs (pulls : List PullRequest) (labels : List String)
    (baseLabel : String) : List PullRequest :=
  pulls.filter (fun p => baseMatches baseLabel p && openPRLabelLoop p.labels labels false)

/-! ## Tags: `allTags`, `latestTagFallback`, `latestTag` -/

structure GitHubTag where
  name : String
  sha : String
  version : String
deriving DecidableEq, Repr

/-- One entry of the tag-listing response. -/
structure TagData where
  name : String
  commitSha : String
deriving DecidableEq, Repr

/-- Models `tags[key] = value` on a JS object: overwrite in place, else append
(string keys keep insertion order). -/
def assocUpsert {α : Type} (l : List (String × α)) (k : String) (v : α) :
    List (String × α) :=
  match l with
  | [] => [(k, v)]
  | (k0, v0) :: rest => if k0 == k then (k, v) :: rest else (k0, v0) :: assocUpsert rest k v

def assocFind {α : Type} (l : List (String × α)) (k : String) : Option α :=
  match l.find? (fun p => p.1 == k) with
  | some p => some p.2
  | none => none

/-- Models `allTags`: the flattened tag pages.  A truthy `prefix` argument filters by
`startsWith`; the argument is then removed with `name.replace(prefix, '')`
(first occurrence only; `undefined` is coerced to the text "undefined"); only
names surviving `semver.valid` are kept, keyed by normalized version. -/
def allTags (tagsData : List TagData) (pfx : Option String) :
    List (String × GitHubTag) :=
  tagsData.foldl (fun tags data =>
    if jsTruthyStr pfx && !(strStartsWith data.name (jsToString pfx)) then tags
    else
      match semverValid (replaceFirstOcc data.name (jsToString pfx)) with
      | some nv => assocUpsert tags nv ⟨data.name, data.commitSha, nv⟩
      | none => tags) []

/-- Models `Object.keys(tags)` filtered: pre-release versions (those containing a
hyphen) are dropped unless `preRelease` is set. -/
def fallbackVersions (tagsData : List TagData) (pfx : Option String)
    (preRelease : Bool) : List String :=
  ((allTags tagsData pfx).map Prod.fst).filter (fun t => preRelease || !(strHasChar t '-'))

/-- The comparator's pre-release rewrite:
`const [prefix, suffix] = v.split('-')` keeps only the first two fragments,
`suffix.replace(/[a-zA-Z.]/, '')` removes only the first letter-or-dot (no `g`
flag), and the result is left-padded with `0` to 6 characters. -/
def fallbackTransform (v : String) : String :=
  if strHasChar v '-' then
    let parts := splitOnChar '-' v
    (parts.headD "") ++ "-" ++ padStart6 (removeFirstAlphaDot (parts.getD 1 ""))
  else v

def fallbackCmp (v1 v2 : String) : Except String Int :=
  rcompareStr (fallbackTransform v1) (fallbackTransform v2)

/-- Insertion into an already-sorted list under a comparator that can throw
(as the comparator of `latestTagFallback` does on strings the strict semver
grammar rejects; a thrown comparator aborts `Array.prototype.sort`). -/
def insertCmpM (cmp : String → String → Except String Int) (x : String) :
    List String → Except String (List String)
  | [] => Except.ok [x]
  | y :: ys =>
    match cmp x y with
    | Except.error e => Except.error e
    | Except.ok c =>
      if c ≤ 0 then Except.ok (x :: y :: ys)
      else
        match insertCmpM cmp x ys with
        | Except.error e => Except.error e
        | Except.ok r => Except.ok (y :: r)

def sortCmpM (cmp : String → String → Except String Int) :
    List String → Except String (List String)
  | [] => Except.ok []
  | x :: xs =>
    match sortCmpM cmp xs with
    | Except.error e => Except.error e
    | Except.ok r => insertCmpM cmp x r

/-- Models `latestTagFallback`.  The two `TypeError` branches model the JS crashes on
`versions[0]` / `tags[versions[0]]` being `undefined`; both are unreachable
because sorting preserves the elements. -/
def latestTagFallback (tagsData : List TagData) (pfx : Option String)
    (preRelease : Bool) : Except String (Option GitHubTag) :=
  let tags := allTags tagsData pfx
  let versions := fallbackVersions tagsData pfx preRelease
  if versions.isEmpty then Except.ok none
  else
    match sortCmpM fallbackCmp versions with
    | Except.error e => Except.error e
    | Except.ok sorted =>
      match sorted.head? with
      | none => Except.error "TypeError: Cannot read properties of undefined"
      | some v =>
        match assocFind tags v with
        | some t => Except.ok (some ⟨t.name, t.sha, t.version⟩)
        | none => Except.error "TypeError: Cannot read properties of undefined"

/-- Models `latestTag`: prefer the most recently merged release PR (no label
requirement, `branchPrefix ?? prefix`), fall back to tag scanning. -/
def latestTag (pulls : List PullRequest) (tagsData : List TagData)
    (baseLabel : String) (pfx : Option String) (preRelease : Bool)
    (branchPfx : Option String) : Except String (Option GitHubTag) :=
  match findMergedReleasePR pulls [] (branchPfx <|> pfx) preRelease baseLabel with
  | some pull => Except.ok (some ⟨"v" ++ pull.version, pull.sha, pull.version⟩)
  | none => latestTagFallback tagsData pfx preRelease

/-! ## Errors and file contents -/

/-- A failure surfaced by the injected request capabilities.  `http` carries
the numeric `status` the code dispatches on; `plain` is a bare
`new Error(message)` whose `status` field is `undefined`. -/
inductive GitHubError where
  | http (status : Nat) (msg : String)
  | plain (msg : String)
deriving DecidableEq, Repr

/-- Reads `err.status` (`none` models `undefined`). -/
def GitHubError.status : GitHubError → Option Nat
  | .http s _ => some s
  | .plain _ => none

structure GitHubFileContents where
  sha : String
  content : String
  parsedContent : String
deriving DecidableEq, Repr

/-- The `data` payload of a contents/blob response. -/
structure ContentsData where
  content : String
  sha : String
deriving DecidableEq, Repr

structure TreeEntry where
  path : String
  sha : String
deriving DecidableEq, Repr

/-- The request capabilities `getFileContents*` consume, modelled as response
maps: the direct contents endpoint (keyed by path and fully-qualified ref),
the tree endpoint (keyed by branch) and the blob endpoint (keyed by sha). -/
structure FetchEnv where
  simpleContents : String → String → Except GitHubError ContentsData
  repoTree : String → Except GitHubError (List TreeEntry)
  blobBySha : String → Except GitHubError ContentsData

/-- Models `GitHub.qualifyRef`: a name without `/` becomes `refs/heads/<name>`. -/
def qualifyRef (refName : String) : String :=
  if strHasChar refName '/' then refName else "refs/heads/" ++ refName

def getFileContentsWithSimpleAPI (env : FetchEnv) (path branch : String) :
    Except GitHubError GitHubFileContents :=
  match env.simpleContents path (qualifyRef branch) with
  | Except.error e => Except.error e
  | Except.ok d => Except.ok ⟨d.sha, d.content, decodeBase64 d.content⟩

/-- The tree+blob fallback.  A path absent from the tree raises a *plain*
`Error` (no `status` field). -/
def getFileContentsWithDataAPI (env : FetchEnv) (path branch : String) :
    Except GitHubError GitHubFileContents :=
  match env.repoTree branch with
  | Except.error e => Except.error e
  | Except.ok t =>
    match t.find? (fun e => e.path == path) with
    | none => Except.error (GitHubError.plain ("Could not find requested path: " ++ path))
    | some bd =>
      match env.blobBySha bd.sha with
      | Except.error e => Except.error e
      | Except.ok d => Except.ok ⟨d.sha, d.content, decodeBase64 d.content⟩

/-- Models `getFileContentsOnBranch`: the data-API fallback runs exactly when the
simple API failed with `status === 403`; every other failure is rethrown. -/
def getFileContentsOnBranch (env : FetchEnv) (path branch : String) :
    Except GitHubError GitHubFileContents :=
  match getFileContentsWithSimpleAPI env path branch with
  | Except.ok r => Except.ok r
  | Except.error e =>
    if e.status == some 403 then getFileContentsWithDataAPI env path branch
    else Except.error e

/-! ## `getChangeSet` and `openPR` -/

/-- A caller-supplied `Update` (external capability): `updateContent` receives
the current decoded text, or `none` for a missing-but-creatable file. -/
structure Update where
  path : String
  create : Bool
  contents : Option GitHubFileContents
  updateContent : Option String → Option String

structure Change where
  content : String
  mode : String
deriving DecidableEq, Repr

/-- One iteration of the `getChangeSet` loop, folded over the updates.
`Except.error` is the rethrow that aborts the whole build. -/
def getChangeSetGo (env : FetchEnv) (defaultBranch : String) :
    List Update → List (String × Change) → Except GitHubError (List (String × Change))
  | [], changes => Except.ok changes
  | u :: rest, changes =>
    let step : Except GitHubError (Option (Option GitHubFileContents)) :=
      match u.contents with
      | some c => Except.ok (some (some c))
      | none =>
        match getFileContentsOnBranch env u.path defaultBranch with
        | Except.ok fc => Except.ok (some (some fc))
        | Except.error e =>
          if e.status != some 404 then Except.error e
          else if u.create then Except.ok (some none)
          else Except.ok none
    match step with
    | Except.error e => Except.error e
    | Except.ok none => getChangeSetGo env defaultBranch rest changes
    | Except.ok (some contentOpt) =>
      let contentText := contentOpt.map (fun c => decodeBase64 c.content)
      match u.updateContent contentText with
      | some newText =>
        if newText == "" then getChangeSetGo env defaultBranch rest changes
        else getChangeSetGo env defaultBranch rest (assocUpsert changes u.path ⟨newText, "100644"⟩)
      | none => getChangeSetGo env defaultBranch rest changes

def getChangeSet (env : FetchEnv) (updates : List Update) (defaultBranch : String) :
    Except GitHubError (List (String × Change)) :=
  getChangeSetGo env defaultBranch updates []

/-- Models `GitHubPR`, the desired state handed to `openPR`. -/
structure GitHubPR where
  branch : String
  fork : Bool
  version : String
  title : String
  body : String
  sha : String
  updates : List Update
  labels : List String

/-- The mutating API calls `openPR` can issue, in order. -/
inductive Mutation where
  | createPullRequest (changes : List (String × Change)) (title branch body : String) (fork : Bool)
  | patchPullRequest (number : Nat) (title body state : String)
deriving DecidableEq, Repr

structure OpenPREnv where
  openPulls : List PullRequest
  contents : FetchEnv
  createPRNumber : Nat

/-- Reads `releasePR.head.ref` of an open-PR candidate.  The REST API always
populates `head`; an absent one would crash the JS with a `TypeError`, so the
model simply never matches it. -/
def headRefMatches (refName : String) (p : PullRequest) : Bool :=
  match p.head with
  | some h => strIncludes refName h.ref
  | none => false

/-- Models `openPR`, returning the PR number together with the mutating calls it
issued.  `refName` is always truthy, so the source's `refName &&` guard is
constant. -/
def openPR (env : OpenPREnv) (owner defaultBranch : String) (options : GitHubPR) :
    Except GitHubError (Nat × List Mutation) :=
  let baseLabel := owner ++ ":" ++ defaultBranch
  let refName := "refs/heads/" ++ options.branch
  let candidates := findOpenReleasePRs env.openPulls options.labels baseLabel
  let openReleasePR := candidates.find? (headRefMatches refName)
  match openReleasePR with
  | some pr =>
    if pr.body == options.body then Except.ok (0, [])
    else
      match getChangeSet env.contents options.updates defaultBranch with
      | Except.error e => Except.error e
      | Except.ok changes =>
        Except.ok (pr.number,
          [Mutation.createPullRequest changes options.title options.branch options.body options.fork,
           Mutation.patchPullRequest pr.number options.title options.body "open"])
  | none =>
    match getChangeSet env.contents options.updates defaultBranch with
    | Except.error e => Except.error e
    | Except.ok changes =>
      Except.ok (env.createPRNumber,
        [Mutation.createPullRequest changes options.title options.branch options.body options.fork])

/-! ## Commit history: `commitsSinceSha` and the retry loops -/

structure Commit where
  sha : String
  message : String
deriving DecidableEq, Repr

structure CommitsResponse where
  commits : List Commit
  hasNextPage : Bool
  endCursor : Option String
deriving DecidableEq, Repr

/-- Models `!commitsResponse.endCursor`: `undefined` and `""` are falsy. -/
def jsFalsyCursor : Option String → Bool
  | none => true
  | some s => s.isEmpty

/-- The inner commit scan of `commitsSinceSha`: push commits until one whose
sha strictly equals the boundary (an `undefined` boundary never equals a
string sha); the flag reports whether the boundary was hit. -/
def scanForSha (bound : Option String) : List Commit → List Commit × Bool
  | [] => ([], false)
  | c :: rest =>
    if bound == some c.sha then ([], true)
    else
      let p := scanForSha bound rest
      (c :: p.1, p.2)

/-- Models `commitsSinceSha` over the successive page responses the backend would
return (each iteration's fetch consumes the next list element). -/
def commitsSinceShaModel (bound : Option String) : List CommitsResponse → List Commit
  | [] => []
  | page :: rest =>
    let p := scanForSha bound page.commits
    if p.2 then p.1
    else if page.hasNextPage == false || jsFalsyCursor page.endCursor then p.1
    else p.1 ++ commitsSinceShaModel bound rest

/-- A well-formed paged history: at least one page, every page before the last
advertises a next page with a truthy cursor, and the last page does not. -/
def chainOK : List CommitsResponse → Bool
  | [] => false
  | [p] => p.hasNextPage == false
  | p :: q :: rest =>
    p.hasNextPage && !(jsFalsyCursor p.endCursor) && chainOK (q :: rest)

/-- The value of the JS expression `retries++` when passed as an argument:
the *pre-increment* value.  (The incremented local is discarded because the
function returns immediately.) -/
def postIncrementValue (r : Nat) : Nat := r

/-- The retry recursion of `commitsWithFiles` (catch clause of the page
fetch).  `backend` maps the attempt index to that request's outcome; `fuel`
bounds the recursion depth we unfold, with `none` meaning the recursion was
still running after `fuel` requests. -/
def commitsWithFilesLoop (backend : Nat → Except GitHubError CommitsResponse)
    (attempt retries : Nat) : Nat → Option (Except GitHubError CommitsResponse)
  | 0 => none
  | fuel + 1 =>
    match backend attempt with
    | Except.ok r => some (Except.ok r)
    | Except.error e =>
      if e.status == some 502 && retries < 3 then
        commitsWithFilesLoop backend (attempt + 1) (postIncrementValue retries) fuel
      else some (Except.error e)

/-- The retry recursion of `commitsWithLabels`: textually the same catch
clause as `commitsWithFiles`. -/
def commitsWithLabelsLoop (backend : Nat → Except GitHubError CommitsResponse)
    (attempt retries : Nat) : Nat → Option (Except GitHubError CommitsResponse)
  | 0 => none
  | fuel + 1 =>
    match backend attempt with
    | Except.ok r => some (Except.ok r)
    | Except.error e =>
      if e.status == some 502 && retries < 3 then
        commitsWithLabelsLoop backend (attempt + 1) (postIncrementValue retries) fuel
      else some (Except.error e)

/-! ## The module-level `probotMode` flag -/

/-- The fields of a `GitHub` instance that request decoration reads. -/
structure GitHubInst where
  token : Option String
  proxyKey : Option String
  apiUrl : String
deriving DecidableEq, Repr

/-- Running `new GitHub(options)`: a construction with injected `octokitAPIs`
sets the module-level `probotMode` to `true`; one without leaves the flag as
it was (it is never reset). -/
def constructProbotMode (injected : Bool) (pm : Bool) : Bool :=
  if injected then true else pm

/-- The flag after a sequence of constructions (`true` = that construction
passed `octokitAPIs`), starting from the module's initial `false`. -/
def probotModeAfter (events : List Bool) : Bool :=
  events.foldl (fun pm e => constructProbotMode e pm) false

/-- Models the template `proxyKey ? blank : token-space` followed by the token. -/
def authTokenValue (inst : GitHubInst) : String :=
  (if jsTruthyStr inst.proxyKey then "" else "token ") ++ jsToString inst.token

structure PaginateOpts where
  method : String
  url : String
  authHeader : Option String
deriving DecidableEq, Repr

/-- Models `decoratePaginateOpts`: in probot mode the options pass through untouched;
otherwise the headers are replaced by an `Authorization` header. -/
def decoratePaginateOpts (pm : Bool) (inst : GitHubInst) (opts : PaginateOpts) :
    PaginateOpts :=
  if pm then opts else { opts with authHeader := some (authTokenValue inst) }

structure GraphqlOpts where
  url : Option String
  authorization : Option String
deriving DecidableEq, Repr

/-- The decoration `graphqlRequest` applies before delegating to `graphql`. -/
def graphqlDecorate (pm : Bool) (inst : GitHubInst) (o : GraphqlOpts) : GraphqlOpts :=
  if pm then o
  else
    { url := some (inst.apiUrl ++ "/graphql" ++
        (if jsTruthyStr inst.proxyKey then "?key=" ++ jsToString inst.proxyKey else "")),
      authorization := some ((if jsTruthyStr inst.proxyKey then "" else "token ") ++
        jsToString inst.token) }

/-! ## Shared helper lemmas -/

/-- A backend whose every attempt fails with HTTP 502. -/
def always502 : Nat → Except GitHubError CommitsResponse :=
  fun _ => Except.error (GitHubError.http 502 "Bad gateway")

theorem commitsWithFilesLoop_502 (fuel : Nat) :
    ∀ attempt, commitsWithFilesLoop always502 attempt 0 fuel = none := by
  induction fuel with
  | zero => intro a; rfl
  | succ f ih =>
    intro a
    simpa [commitsWithFilesLoop, always502, GitHubError.status, postIncrementValue] using ih (a + 1)

theorem commitsWithLabelsLoop_502 (fuel : Nat) :
    ∀ attempt, commitsWithLabelsLoop always502 attempt 0 fuel = none := by
  induction fuel with
  | zero => intro a; rfl
  | succ f ih =>
    intro a
    simpa [commitsWithLabelsLoop, always502, GitHubError.status, postIncrementValue] using ih (a + 1)

/-! ## Claim theorems -/

/-- C1: the claim says a persistent 502 surfaces after at most 3 additional
attempts (4 requests in total).  The code instead passes the post-increment
expression `retries++` — i.e. the *pre-increment* value — into the recursive
call, so the retry counter never advances and a persistent 502 retries
without bound: unfolding any finite number of requests never reaches a
surfaced error.  The part of the claim about other statuses is accurate: a
non-502 failure surfaces on the very first request. -/
theorem commitsSinceSha_retry_unbounded :
    (∀ fuel, commitsWithFilesLoop always502 0 0 fuel = none) ∧
    (∀ fuel, commitsWithLabelsLoop always502 0 0 fuel = none) ∧
    commitsWithFilesLoop (fun _ => Except.error (GitHubError.http 500 "boom")) 0 0 1 =
      some (Except.error (GitHubError.http 500 "boom")) ∧
    commitsWithLabelsLoop (fun _ => Except.error (GitHubError.http 500 "boom")) 0 0 1 =
      some (Except.error (GitHubError.http 500 "boom")) :=
  ⟨fun fuel => commitsWithFilesLoop_502 fuel 0,
   fun fuel => commitsWithLabelsLoop_502 fuel 0,
   by rfl, by rfl⟩

/-- C4: the claim says `latestTagFallback` with exactly the tags `1.0.0-2`
and `1.0.0-10` (pre-releases included) returns the tag for `1.0.0-10`.  Both
tags are valid semver and survive `allTags`, but the comparator zero-pads
their numeric suffixes to `000002`/`000010`, which the strict semver grammar
rejects (leading zeroes in a numeric pre-release identifier), so
`semver.rcompare` throws `Invalid Version` and the sort — hence the whole
call — fails instead of returning `1.0.0-10`. -/
theorem latestTagFallback_padded_prerelease_throws :
    latestTagFallback [⟨"1.0.0-2", "s1"⟩, ⟨"1.0.0-10", "s2"⟩] none true =
      Except.error "Invalid Version: 1.0.0-000010" ∧
    semverValid "1.0.0-2" = some "1.0.0-2" ∧
    semverValid "1.0.0-10" = some "1.0.0-10" ∧
    fallbackTransform "1.0.0-2" = "1.0.0-000002" ∧
    fallbackTransform "1.0.0-10" = "1.0.0-000010" ∧
    semverValid "1.0.0-000010" = none :=
  ⟨by rfl, by decide, by decide, by decide, by decide, by decide⟩

/-- C2 counterexample: with a single pre-release tag on the repository and
`preRelease = false`, `latestTag` (no merged release PR) returns absent even
though a tag exists — the fallback filters out every pre-release before
checking emptiness, so "returns absent only when no tags exist at all" is
false. -/
theorem latestTag_absent_with_existing_tag :
    latestTag [] [⟨"v1.0.0-alpha", "s1"⟩] "o:main" none false none = Except.ok none ∧
    ([⟨"v1.0.0-alpha", "s1"⟩] : List TagData) ≠ [] :=
  ⟨by rfl, by decide⟩

theorem latestTagFallback_ok_none_iff (tagsData : List TagData) (pfx : Option String)
    (pre : Bool) :
    latestTagFallback tagsData pfx pre = Except.ok none ↔
      fallbackVersions tagsData pfx pre = [] := by
  simp only [latestTagFallback]
  cases hv : fallbackVersions tagsData pfx pre with
  | nil => simp
  | cons v vs =>
    simp only [List.isEmpty_cons, Bool.false_eq_true, if_false]
    cases hs : sortCmpM fallbackCmp (v :: vs) with
    | error e => simp
    | ok sorted =>
      cases sorted with
      | nil => simp
      | cons s ss =>
        cases hf : assocFind (allTags tagsData pfx) s with
        | some t => simp [hf]
        | none => simp [hf]

/-- C2 amended: `latestTag` returns absent if and only if no merged release
PR matches the prefix rule *and* no tag survives the fallback's filtering —
prefix match, valid semver after prefix removal, and (unless
`includePreRelease`) no pre-release hyphen.  A repository with tags can thus
still yield absent, e.g. when every tag is a pre-release and
`includePreRelease` is false, or when no tag parses as semver. -/
theorem latestTag_absent_iff :
    ∀ (pulls : List PullRequest) (tagsData : List TagData) (baseLabel : String)
      (pfx : Option String) (preRelease : Bool) (branchPfx : Option String),
      latestTag pulls tagsData baseLabel pfx preRelease branchPfx = Except.ok none ↔
        (findMergedReleasePR pulls [] (branchPfx <|> pfx) preRelease baseLabel = none ∧
         fallbackVersions tagsData pfx preRelease = []) := by
  intro pulls tagsData baseLabel pfx pre bp
  unfold latestTag
  cases h : findMergedReleasePR pulls [] (bp <|> pfx) pre baseLabel with
  | some pull => simp
  | none => simp [latestTagFallback_ok_none_iff]

/-- An open PR against `o:main` carrying one label. -/
def prOpenA : PullRequest :=
  ⟨1, ["autorelease: pending"], some ⟨"o:rel", "rel"⟩, some ⟨"o:main", "main"⟩, none, "", "body"⟩

/-- C5 counterexample: with `labels = []`, `hasAllLabels` is initialized to
`false` and the rewrite loop never runs, so even a PR whose base label equals
`<owner>:<defaultBranch>` is *excluded*: the empty requirement matches
nothing, not everything. -/
theorem findOpenReleasePRs_empty_labels_excludes :
    findOpenReleasePRs [prOpenA] [] "o:main" = [] ∧
    baseMatches "o:main" prOpenA = true :=
  ⟨by decide, by decide⟩

theorem openPRLabelLoop_true (observed : List String) :
    ∀ ls, openPRLabelLoop observed ls true = ls.all (fun l => observed.contains l) := by
  intro ls
  induction ls with
  | nil => rfl
  | cons l rest ih => cases h : observed.contains l <;> simp [openPRLabelLoop, h, ih]

theorem openPRLabelLoop_false_nonempty (observed : List String) (l : String)
    (rest : List String) :
    openPRLabelLoop observed (l :: rest) false =
      (l :: rest).all (fun x => observed.contains x) := by
  cases h : observed.contains l <;> simp [openPRLabelLoop, h, openPRLabelLoop_true]

/-- C5 amended: an empty `requiredLabels` list matches *no* PR —
`findOpenReleasePRs` with empty labels always returns the empty list.  For a
nonempty requirement the superset filter behaves as described: a PR is
included exactly when its base label matches and every required label occurs
among its labels. -/
theorem findOpenReleasePRs_filter_semantics :
    (∀ (pulls : List PullRequest) (baseLabel : String),
      findOpenReleasePRs pulls [] baseLabel = []) ∧
    (∀ (pulls : List PullRequest) (labels : List String) (baseLabel : String)
       (p : PullRequest), labels ≠ [] →
      (p ∈ findOpenReleasePRs pulls labels baseLabel ↔
        p ∈ pulls ∧ baseMatches baseLabel p = true ∧ ∀ l ∈ labels, l ∈ p.labels)) := by
  constructor
  · intro pulls baseLabel
    simp [findOpenReleasePRs, openPRLabelLoop]
  · intro pulls labels baseLabel p hne
    cases labels with
    | nil => exact absurd rfl hne
    | cons l rest =>
      simp [findOpenReleasePRs, List.mem_filter, openPRLabelLoop_false_nonempty,
        List.all_eq_true, List.elem_iff]

theorem findOpenReleasePRs_filter_semantics_witness :
    prOpenA ∈ findOpenReleasePRs [prOpenA] ["autorelease: pending"] "o:main" :=
  (findOpenReleasePRs_filter_semantics.2 [prOpenA] ["autorelease: pending"] "o:main" prOpenA
    (by decide)).mpr ⟨by decide, by decide, by decide⟩

/-- A contents environment in which every direct lookup is 404 and every
tree is empty (nothing on the branch). -/
def fetchEnvEmpty : FetchEnv :=
  ⟨fun _ _ => Except.error (GitHubError.http 404 "Not Found"),
   fun _ => Except.ok [],
   fun _ => Except.error (GitHubError.http 404 "Not Found")⟩

/-- Open PR whose head ref matches the desired branch but whose body is
stale; listed *before* its twin with the desired body. -/
def prOpenOld : PullRequest :=
  ⟨1, ["autorelease: pending"], some ⟨"o:release-v1", "release-v1.0.0"⟩,
   some ⟨"o:main", "main"⟩, none, "", "old body"⟩

/-- Open PR whose head ref matches the desired branch and whose body already
equals the desired body. -/
def prOpenWant : PullRequest :=
  ⟨2, ["autorelease: pending"], some ⟨"o:release-v1", "release-v1.0.0"⟩,
   some ⟨"o:main", "main"⟩, none, "", "desired body"⟩

def optionsC6 : GitHubPR :=
  ⟨"release-v1.0.0", false, "1.0.0", "chore: release 1.0.0", "desired body", "abc",
   [], ["autorelease: pending"]⟩

def envC6 : OpenPREnv := ⟨[prOpenOld, prOpenWant], fetchEnvEmpty, 7⟩

/-- C6 counterexample: the claim quantifies existentially ("there is one
whose head ref is contained … and whose body is textually identical"), but
the code only inspects the *first* ref-matching candidate.  Here the second
candidate satisfies the claim's condition with the desired body, yet `openPR`
does not return `(0, no mutations)`: it updates the first candidate and
issues two mutating calls. -/
theorem openPR_first_match_shadows_identical_body :
    openPR envC6 "o" "main" optionsC6 =
      Except.ok (1,
        [Mutation.createPullRequest [] "chore: release 1.0.0" "release-v1.0.0"
          "desired body" false,
         Mutation.patchPullRequest 1 "chore: release 1.0.0" "desired body" "open"]) ∧
    prOpenWant ∈ findOpenReleasePRs envC6.openPulls optionsC6.labels "o:main" ∧
    headRefMatches ("refs/heads/" ++ optionsC6.branch) prOpenWant = true ∧
    prOpenWant.body = optionsC6.body :=
  ⟨by rfl, by decide, by decide, by rfl⟩

/-- C6 amended: the short-circuit is decided by the *first* open PR (in
listing order) that passes the label and base filters and whose head ref is
contained in `refs/heads/<branch>`.  If that PR's body equals the requested
body, `openPR` returns 0 having issued no mutating call; if it differs,
`openPR` builds the change set, delegates branch/PR creation, patches that
PR's title and body reasserting the open state, and returns that PR's
number. -/
theorem openPR_first_match_semantics :
    ∀ (env : OpenPREnv) (owner defaultBranch : String) (options : GitHubPR)
      (pr : PullRequest),
      (findOpenReleasePRs env.openPulls options.labels
          (owner ++ ":" ++ defaultBranch)).find?
          (headRefMatches ("refs/heads/" ++ options.branch)) = some pr →
      (pr.body = options.body →
        openPR env owner defaultBranch options = Except.ok (0, [])) ∧
      (pr.body ≠ options.body → ∀ changes,
        getChangeSet env.contents options.updates defaultBranch = Except.ok changes →
        openPR env owner defaultBranch options =
          Except.ok (pr.number,
            [Mutation.createPullRequest changes options.title options.branch
              options.body options.fork,
             Mutation.patchPullRequest pr.number options.title options.body "open"])) := by
  intro env owner db options pr hfind
  constructor
  · intro hbody
    simp only [openPR, hfind]
    simp [hbody]
  · intro hbody changes hcs
    have hb : (pr.body == options.body) = false := by
      simp [hbody]
    simp only [openPR, hfind]
    simp [hb, hcs]

def envC6w : OpenPREnv := ⟨[prOpenWant], fetchEnvEmpty, 7⟩

theorem openPR_first_match_semantics_witness :
    openPR envC6w "o" "main" optionsC6 = Except.ok (0, []) :=
  (openPR_first_match_semantics envC6w "o" "main" optionsC6 prOpenWant (by rfl)).1 (by rfl)

/-- A contents environment whose direct endpoint always answers 403 and whose
trees are empty, so the fallback's path lookup fails. -/
def fetchEnv403 : FetchEnv :=
  ⟨fun _ _ => Except.error (GitHubError.http 403 "Resource not accessible by integration"),
   fun _ => Except.ok [],
   fun _ => Except.error (GitHubError.http 404 "Not Found")⟩

/-- C7 counterexample: when the fallback runs (after a 403) and the tree has
no matching entry, the raised error is the bare
`Error('Could not find requested path: …')` — it carries *no* status, so
under the spec's status-code taxonomy it is not a NotFound (404-class)
error. -/
theorem getFileContentsOnBranch_missing_path_not_404 :
    getFileContentsOnBranch fetchEnv403 "pkg.json" "main" =
      Except.error (GitHubError.plain "Could not find requested path: pkg.json") ∧
    (GitHubError.plain "Could not find requested path: pkg.json").status ≠ some 404 ∧
    (GitHubError.plain "Could not find requested path: pkg.json").status = none :=
  ⟨by rfl, by decide, by rfl⟩

/-- C7 amended: the tree+blob fallback is attempted exactly when the direct
contents request fails with status 403; any other failure propagates
unchanged without the fallback; and when the fallback runs and the tree has
no exactly-matching entry, a *plain* `Error` with message
`Could not find requested path: <path>` and no status field is raised — not a
permission-denied, but also not a status-404 NotFound. -/
theorem getFileContentsOnBranch_fallback_semantics :
    ∀ (env : FetchEnv) (path branch : String),
      (∀ r, getFileContentsWithSimpleAPI env path branch = Except.ok r →
        getFileContentsOnBranch env path branch = Except.ok r) ∧
      (∀ e, getFileContentsWithSimpleAPI env path branch = Except.error e →
        e.status = some 403 →
        getFileContentsOnBranch env path branch =
          getFileContentsWithDataAPI env path branch) ∧
      (∀ e, getFileContentsWithSimpleAPI env path branch = Except.error e →
        e.status ≠ some 403 →
        getFileContentsOnBranch env path branch = Except.error e) ∧
      (∀ e t, getFileContentsWithSimpleAPI env path branch = Except.error e →
        e.status = some 403 → env.repoTree branch = Except.ok t →
        t.find? (fun en => en.path == path) = none →
        getFileContentsOnBranch env path branch =
          Except.error (GitHubError.plain ("Could not find requested path: " ++ path)) ∧
        (GitHubError.plain ("Could not find requested path: " ++ path)).status = none) := by
  intro env path branch
  refine ⟨?_, ?_, ?_, ?_⟩
  · intro r h
    simp [getFileContentsOnBranch, h]
  · intro e h h403
    simp [getFileContentsOnBranch, h, h403]
  · intro e h h403
    have : (e.status == some 403) = false := by
      simp [h403]
    simp [getFileContentsOnBranch, h, this]
  · intro e t h h403 htree hfindnone
    refine ⟨?_, by rfl⟩
    simp [getFileContentsOnBranch, h, h403, getFileContentsWithDataAPI, htree, hfindnone]

theorem getFileContentsOnBranch_fallback_semantics_witness :
    getFileContentsOnBranch fetchEnv403 "conf/app.yaml" "dev" =
      getFileContentsWithDataAPI fetchEnv403 "conf/app.yaml" "dev" :=
  ((getFileContentsOnBranch_fallback_semantics fetchEnv403 "conf/app.yaml" "dev").2.1)
    (GitHubError.http 403 "Resource not accessible by integration") (by rfl) (by rfl)

/-- C10: the missing-path error of the tree+blob fallback is a plain `Error`
with no numeric status, so `getChangeSet`'s 404 tolerance (`err.status !==
404`) does not apply: even for an update with `create = true`, the error is
rethrown and aborts the whole change-set build. -/
theorem getChangeSet_plain_error_aborts :
    ∀ (env : FetchEnv) (db : String) (u : Update) (e : GitHubError) (t : List TreeEntry),
      u.contents = none → u.create = true →
      env.simpleContents u.path (qualifyRef db) = Except.error e →
      e.status = some 403 →
      env.repoTree db = Except.ok t →
      t.find? (fun en => en.path == u.path) = none →
      getChangeSet env [u] db =
        Except.error (GitHubError.plain ("Could not find requested path: " ++ u.path)) ∧
      (GitHubError.plain ("Could not find requested path: " ++ u.path)).status = none := by
  intro env db u e t hcont hcreate hsimple h403 htree hfindnone
  refine ⟨?_, by rfl⟩
  have hob : getFileContentsOnBranch env u.path db =
      Except.error (GitHubError.plain ("Could not find requested path: " ++ u.path)) := by
    simp [getFileContentsOnBranch, getFileContentsWithSimpleAPI, hsimple, h403,
      getFileContentsWithDataAPI, htree, hfindnone]
  simp [getChangeSet, getChangeSetGo, hcont, hob, GitHubError.status]

/-- An update whose file is creatable and whose transform writes nothing. -/
def updC10 : Update := ⟨"pkg.json", true, none, fun _ => none⟩

theorem getChangeSet_plain_error_aborts_witness :
    getChangeSet fetchEnv403 [updC10] "main" =
      Except.error (GitHubError.plain "Could not find requested path: pkg.json") :=
  (getChangeSet_plain_error_aborts fetchEnv403 "main" updC10
    (GitHubError.http 403 "Resource not accessible by integration") []
    (by rfl) (by rfl) (by rfl) (by rfl) (by rfl) (by rfl)).1

theorem scanForSha_spec (bound : Option String) :
    ∀ cs : List Commit,
      scanForSha bound cs =
        (cs.takeWhile (fun c => !(bound == some c.sha)),
         cs.any (fun c => bound == some c.sha)) := by
  intro cs
  induction cs with
  | nil => rfl
  | cons c rest ih =>
    cases h : (bound == some c.sha) <;>
      simp [scanForSha, h, List.takeWhile_cons, ih]

theorem takeWhile_append_of_all {α : Type} (p : α → Bool) :
    ∀ (l1 l2 : List α), l1.all p = true →
      (l1 ++ l2).takeWhile p = l1 ++ l2.takeWhile p := by
  intro l1
  induction l1 with
  | nil => intro l2 _; rfl
  | cons a as ih =>
    intro l2 h
    simp only [List.all_cons, Bool.and_eq_true] at h
    simp [List.takeWhile_cons, h.1, ih l2 h.2]

theorem takeWhile_append_of_any {α : Type} (p : α → Bool) :
    ∀ (l1 l2 : List α), l1.any (fun a => !(p a)) = true →
      (l1 ++ l2).takeWhile p = l1.takeWhile p := by
  intro l1
  induction l1 with
  | nil => intro l2 h; simp at h
  | cons a as ih =>
    intro l2 h
    cases hp : p a with
    | false => simp [List.takeWhile_cons, hp]
    | true =>
      simp only [List.any_cons, hp, Bool.not_true, Bool.false_or] at h
      simp [List.takeWhile_cons, hp, ih l2 h]

theorem commitsSinceShaModel_takeWhile (bound : Option String) :
    ∀ pages : List CommitsResponse, chainOK pages = true →
      commitsSinceShaModel bound pages =
        ((pages.map CommitsResponse.commits).flatten).takeWhile
          (fun c => !(bound == some c.sha)) := by
  intro pages
  induction pages with
  | nil => intro h; simp [chainOK] at h
  | cons page rest ih =>
    intro h
    cases hany : page.commits.any (fun c => bound == some c.sha) with
    | true =>
      have hmodel : commitsSinceShaModel bound (page :: rest) =
          page.commits.takeWhile (fun c => !(bound == some c.sha)) := by
        simp [commitsSinceShaModel, scanForSha_spec, hany]
      rw [hmodel]
      conv_rhs => rw [List.map_cons, List.flatten_cons]
      rw [takeWhile_append_of_any _ _ _ (by simpa [Bool.not_not] using hany)]
    | false =>
      have hall : page.commits.all (fun c => !(bound == some c.sha)) = true := by
        rw [List.all_eq_true]
        intro c hc
        rw [List.any_eq_false] at hany
        simpa using hany c hc
      cases rest with
      | nil =>
        have hlast : page.hasNextPage = false := by simpa [chainOK] using h
        have hmodel : commitsSinceShaModel bound [page] =
            page.commits.takeWhile (fun c => !(bound == some c.sha)) := by
          simp [commitsSinceShaModel, scanForSha_spec, hany, hlast]
        rw [hmodel]
        simp
      | cons q qs =>
        have hch : (page.hasNextPage && (!jsFalsyCursor page.endCursor) &&
            chainOK (q :: qs)) = true := by simpa [chainOK] using h
        simp only [Bool.and_eq_true] at hch
        have h1 : page.hasNextPage = true := hch.1.1
        have h2 : jsFalsyCursor page.endCursor = false := by
          simpa using hch.1.2
        have htw : page.commits.takeWhile (fun c => !(bound == some c.sha)) =
            page.commits :=
          List.takeWhile_eq_self_iff.mpr (List.all_eq_true.mp hall)
        have hmodel : commitsSinceShaModel bound (page :: q :: qs) =
            page.commits.takeWhile (fun c => !(bound == some c.sha)) ++
              commitsSinceShaModel bound (q :: qs) := by
          simp [commitsSinceShaModel, scanForSha_spec, hany, h1, h2]
        rw [hmodel, htw, ih hch.2]
        conv_rhs => rw [List.map_cons, List.flatten_cons]
        rw [takeWhile_append_of_all _ _ _ hall]

/-- C8: over any well-formed paged history, `commitsSinceSha` returns exactly
the longest prefix of the concatenated most-recent-first commit stream whose
shas differ from the boundary — i.e. everything strictly preceding the first
occurrence of `boundarySha`, in order and excluding the boundary commit
itself (no returned commit carries the boundary sha); and when the boundary
never occurs, it returns all commits across all pages. -/
theorem commitsSinceSha_stops_at_boundary :
    ∀ (pages : List CommitsResponse) (bound : Option String),
      chainOK pages = true →
      commitsSinceShaModel bound pages =
        ((pages.map CommitsResponse.commits).flatten).takeWhile
          (fun c => !(bound == some c.sha)) ∧
      (((pages.map CommitsResponse.commits).flatten).all
          (fun c => !(bound == some c.sha)) = true →
        commitsSinceShaModel bound pages = (pages.map CommitsResponse.commits).flatten) ∧
      (∀ c ∈ commitsSinceShaModel bound pages, (bound == some c.sha) = false) := by
  intro pages bound h
  have h1 := commitsSinceShaModel_takeWhile bound pages h
  refine ⟨h1, ?_, ?_⟩
  · intro hall
    rw [h1]
    exact List.takeWhile_eq_self_iff.mpr (List.all_eq_true.mp hall)
  · intro c hc
    rw [h1] at hc
    have := List.mem_takeWhile_imp hc
    simpa using this

def cmA : Commit := ⟨"s1", "feat: one"⟩
def cmB : Commit := ⟨"s2", "fix: two"⟩
def cmC : Commit := ⟨"s3", "feat: three"⟩
def cmD : Commit := ⟨"s4", "chore: boundary"⟩
def cmE : Commit := ⟨"s5", "docs: five"⟩

/-- A two-page history with the boundary at position 1 of page 2. -/
def pagesC8 : List CommitsResponse :=
  [⟨[cmA, cmB], true, some "cursor1"⟩, ⟨[cmC, cmD, cmE], false, none⟩]

theorem commitsSinceSha_stops_at_boundary_witness :
    commitsSinceShaModel (some "s4") pagesC8 = [cmA, cmB, cmC] := by
  have h := commitsSinceSha_stops_at_boundary pagesC8 (some "s4") (by decide)
  exact h.1.trans (by decide)

theorem findSome?_exists {α β : Type} (f : α → Option β) :
    ∀ (l : List α) (b : β), l.findSome? f = some b → ∃ a, a ∈ l ∧ f a = some b := by
  intro l
  induction l with
  | nil => intro b h; simp [List.findSome?] at h
  | cons x xs ih =>
    intro b h
    rw [List.findSome?] at h
    cases hf : f x with
    | some v =>
      rw [hf] at h
      exact ⟨x, List.mem_cons_self x xs, hf.trans h⟩
    | none =>
      rw [hf] at h
      obtain ⟨a, ha, hfa⟩ := ih b h
      exact ⟨a, List.mem_cons_of_mem x ha, hfa⟩

/-- The prefix rule of `findMergedReleasePR`: a truthy requested prefix must
equal the extracted capture; a falsy one (absent or empty) requires an empty
capture. -/
def prefixRuleOK (pfx : Option String) (g1 : String) : Bool :=
  if jsTruthyStr pfx then g1 == jsToString pfx else g1 == ""

theorem mergedPRCheck_inv (labels : List String) (pfx : Option String)
    (preRelease : Bool) (baseLabel : String) (pull : PullRequest)
    (r : GitHubReleasePR) :
    mergedPRCheck labels pfx preRelease baseLabel pull = some r →
    ∃ head g1 version, pull.head = some head ∧
      versionFromBranch head.label = some (g1, version) ∧
      prefixRuleOK pfx g1 = true := by
  intro h
  unfold mergedPRCheck at h
  split at h
  · simp at h
  split at h
  · simp at h
  next head hhead =>
  split at h
  · simp at h
  next base hbase =>
  split at h
  · simp at h
  split at h
  · simp at h
  next g1 version hvfb =>
  split at h
  · simp at h
  split at h
  · simp at h
  split at h
  · simp at h
  next hpos =>
  split at h
  · simp at h
  next hneg =>
  refine ⟨head, g1, version, hhead, hvfb, ?_⟩
  cases ht : jsTruthyStr pfx <;> simp_all [prefixRuleOK]

/-- The merged release PR of the C9 scenario: labelled
`release-please, autorelease: pending`, head `owner:release-mypkg-v1.2.3`,
base `owner:main`, merged. -/
def prMergedC9 : PullRequest :=
  ⟨10, ["release-please", "autorelease: pending"],
   some ⟨"owner:release-mypkg-v1.2.3", "release-mypkg-v1.2.3"⟩,
   some ⟨"owner:main", "main"⟩, some "2020-01-02T03:04:05Z", "mergesha", ""⟩

/-- C9: `findMergedReleasePR` only returns a PR whose extracted package
prefix satisfies the prefix rule (truthy requested prefix ⇒ captures equal;
absent prefix ⇒ empty capture; any other combination excludes the PR).  On
the concrete scenario — merged PR with base `owner:main` and head
`owner:release-mypkg-v1.2.3` carrying the required label — the call returns
version `1.2.3` for `prefix = "mypkg"` and absent when the prefix is
omitted. -/
theorem findMergedReleasePR_prefix_exact :
    findMergedReleasePR [prMergedC9] ["release-please"] (some "mypkg") true "owner:main" =
      some ⟨10, "mergesha", "1.2.3"⟩ ∧
    findMergedReleasePR [prMergedC9] ["release-please"] none true "owner:main" = none ∧
    (∀ (pulls : List PullRequest) (labels : List String) (pfx : Option String)
       (preRelease : Bool) (baseLabel : String) (r : GitHubReleasePR),
      findMergedReleasePR pulls labels pfx preRelease baseLabel = some r →
      ∃ pull head g1 version, pull ∈ pulls ∧ pull.head = some head ∧
        versionFromBranch head.label = some (g1, version) ∧
        prefixRuleOK pfx g1 = true) := by
  refine ⟨by decide, by decide, ?_⟩
  intro pulls labels pfx preRelease baseLabel r h
  obtain ⟨pull, hmem, hcheck⟩ :=
    findSome?_exists (mergedPRCheck labels pfx preRelease baseLabel) pulls r h
  obtain ⟨head, g1, version, hhead, hvfb, hrule⟩ :=
    mergedPRCheck_inv labels pfx preRelease baseLabel pull r hcheck
  exact ⟨pull, head, g1, version, hmem, hhead, hvfb, hrule⟩

theorem findMergedReleasePR_prefix_exact_witness :
    ∃ pull head g1 version, pull ∈ [prMergedC9] ∧ pull.head = some head ∧
      versionFromBranch head.label = some (g1, version) ∧
      prefixRuleOK (some "mypkg") g1 = true :=
  findMergedReleasePR_prefix_exact.2.2 [prMergedC9] ["release-please"] (some "mypkg")
    true "owner:main" ⟨10, "mergesha", "1.2.3"⟩ (by decide)

/-- An instance as the constructor builds it without injected APIs. -/
def instPlain : GitHubInst := ⟨some "SECRET-TOKEN", none, "https://api.github.com"⟩

def samplePaginateOpts : PaginateOpts := ⟨"GET", "/repos/o/r/tags?per_page=100", none⟩

/-- C3 counterexample: `probotMode` is a module-level `let`, not an instance
field.  Constructing a probot instance (injected APIs) *before* a plain
instance changes what `decoratePaginateOpts` does for the plain instance:
construction order is observable, contradicting the claim. -/
theorem probotMode_order_dependent :
    decoratePaginateOpts (probotModeAfter [true, false]) instPlain samplePaginateOpts ≠
      decoratePaginateOpts (probotModeAfter [false]) instPlain samplePaginateOpts := by
  decide

theorem probotModeAfter_any (events : List Bool) :
    probotModeAfter events = events.any id := by
  have aux : ∀ (l : List Bool) (b : Bool),
      l.foldl (fun pm e => constructProbotMode e pm) b = (b || l.any id) := by
    intro l
    induction l with
    | nil => intro b; simp
    | cons e rest ih =>
      intro b
      simp only [List.foldl, List.any_cons, id]
      rw [ih]
      cases e <;> cases b <;> simp [constructProbotMode]
  simpa using aux events false

/-- C3 amended: the embedding-mode setting is process-global, not
instance-scoped.  It is `true` after a construction sequence exactly when
some construction injected `octokitAPIs` (and it is never reset), and the
decoration an instance applies to graphql and paginated requests depends on
that global flag: the authorization decoration is skipped whenever *any*
earlier-constructed instance — not necessarily this one — was a probot
instance. -/
theorem probotMode_process_global :
    ∀ (events : List Bool) (inst : GitHubInst) (opts : PaginateOpts) (g : GraphqlOpts),
      probotModeAfter events = events.any id ∧
      decoratePaginateOpts (probotModeAfter events) inst opts =
        (if events.any id then opts
         else { opts with authHeader := some (authTokenValue inst) }) ∧
      graphqlDecorate (probotModeAfter events) inst g =
        (if events.any id then g else graphqlDecorate false inst g) := by
  intro events inst opts g
  refine ⟨probotModeAfter_any events, ?_, ?_⟩ <;>
    rw [probotModeAfter_any events] <;> cases h : events.any id <;>
      simp [decoratePaginateOpts, graphqlDecorate]
